import Mathlib

/-!
Shallow embedding of the NeuralNetworkJPO core (namespace `kl` in the C++
source): `Neuron`, the `Layer` hierarchy, `NeuralNetwork`, and the two
normalization utilities from `utils.cpp`.  C++ `double` arithmetic is
modelled by `ℝ`; `std::vector` by `List`; out-of-range element reads
(undefined behaviour in the source) are modelled by `List.getD`/`List.headD`
with the default value `0` — every theorem below carries length hypotheses
that keep all reads in range, matching the source's preconditions.
-/

namespace kl

/-- State of `kl::Neuron` (Neuron.hpp/Neuron.cpp): value, bias, activation,
gradient and the incoming weights.  The default constructor zeroes the four
scalars and leaves the weights empty. -/
structure Neuron where
  value : ℝ
  bias : ℝ
  activation : ℝ
  gradient : ℝ
  weights : List ℝ

/-- The C++ default constructor `Neuron::Neuron()`. -/
def defaultNeuron : Neuron :=
  { value := 0, bias := 0, activation := 0, gradient := 0, weights := [] }

instance : Inhabited Neuron := ⟨defaultNeuron⟩

/-- Source `Neuron::tanhActivation(double x) { return std::tanh(x); }`. -/
noncomputable def tanhActivation (x : ℝ) : ℝ := Real.tanh x

/-- Source `Neuron::tanhDerivative(double x)
{ return 1.0 - std::tanh(x) * std::tanh(x); }`.  Note that the source
applies `std::tanh` to the argument again. -/
noncomputable def tanhDerivative (x : ℝ) : ℝ := 1 - Real.tanh x * Real.tanh x

/-- The three `Layer` subclasses of Layer.hpp. -/
inductive LayerKind
  | input
  | hidden
  | output
deriving DecidableEq

/-- A layer: its C++ dynamic type and its `m_neurons` vector.  The
previous/next pointers of the source are positional in the network's layer
list (the constructor wires `m_previousLayer = m_layers[i-1]`,
`m_nextLayer = m_layers[i+1]`), so adjacent layers are passed explicitly to
the per-layer operations below. -/
structure Layer where
  kind : LayerKind
  neurons : List Neuron

def defaultLayer : Layer := { kind := LayerKind.input, neurons := [] }

instance : Inhabited Layer := ⟨defaultLayer⟩

/-- Source `InputLayer::forwardParam`: neuron `i` receives `input[i]` as both
its value and its activation. -/
def loadInput : List ℝ → List Neuron → List Neuron
  | _, [] => []
  | xs, n :: ns =>
    { n with value := xs.headD 0, activation := xs.headD 0 } :: loadInput xs.tail ns

/-- The weighted-sum loop shared by `HiddenLayer::forward` and
`OutputLayer::forward`: `Σ_i prev[i].activation * weights[i]`, iterating
over the predecessor's neurons. -/
def weightedContrib : List Neuron → List ℝ → ℝ
  | [], _ => 0
  | p :: ps, ws => p.activation * ws.headD 0 + weightedContrib ps ws.tail

/-- Source `HiddenLayer::forward` = `OutputLayer::forward`: every neuron's
activation becomes `tanh(weightedSum + bias)`; no other field changes. -/
noncomputable def layerForward (prev cur : List Neuron) : List Neuron :=
  cur.map fun n =>
    { n with activation := tanhActivation (weightedContrib prev n.weights + n.bias) }

/-- Source `OutputLayer::backwardParam(target)`: neuron `i` gets gradient
`(target[i] - activation) * tanhDerivative(activation)`. -/
noncomputable def loadTarget : List ℝ → List Neuron → List Neuron
  | _, [] => []
  | ts, n :: ns =>
    { n with gradient := (ts.headD 0 - n.activation) * tanhDerivative n.activation }
      :: loadTarget ts.tail ns

/-- The inner loop of `HiddenLayer::backward`: sum over the successor
layer's neurons of `weights[i] * gradient`. -/
def downstreamGradientSum (i : ℕ) (next : List Neuron) : ℝ :=
  (next.map fun m => m.weights.getD i 0 * m.gradient).sum

/-- Source `HiddenLayer::backward`, with the running neuron index made
explicit: neuron `i` gets gradient
`downstreamGradientSum i next * tanhDerivative(activation)`. -/
noncomputable def hiddenBackwardAux (next : List Neuron) : ℕ → List Neuron → List Neuron
  | _, [] => []
  | i, n :: ns =>
    { n with gradient := downstreamGradientSum i next * tanhDerivative n.activation }
      :: hiddenBackwardAux next (i + 1) ns

/-- Source `HiddenLayer::backward` over the whole layer. -/
noncomputable def hiddenBackward (cur next : List Neuron) : List Neuron :=
  hiddenBackwardAux next 0 cur

/-- The weight loop of `NeuralNetwork::updateWeightsAndBiases`:
`weights[j] += learningRate * gradient * prevNeurons[j].activation`. -/
def updateWeights (lr g : ℝ) : List ℝ → List Neuron → List ℝ
  | [], _ => []
  | w :: ws, prev =>
    (w + lr * g * (prev.headD defaultNeuron).activation) :: updateWeights lr g ws prev.tail

/-- One layer's part of `NeuralNetwork::updateWeightsAndBiases`: every
neuron's weights are updated from the predecessor's activations and its
bias by `bias += learningRate * gradient`. -/
def updateLayer (lr : ℝ) (prev cur : List Neuron) : List Neuron :=
  cur.map fun n =>
    { n with weights := updateWeights lr n.gradient n.weights prev,
             bias := n.bias + lr * n.gradient }

/-- State of `kl::NeuralNetwork`: `m_layers`, `m_topology`,
`m_learningRate`. -/
structure Network where
  layers : List Layer
  topology : List ℕ
  learningRate : ℝ

/-- The layer kinds and sizes the constructor builds from a topology:
`InputLayer(topology[0])`, then `HiddenLayer(topology[i])` for
`i = 1 .. topology.size()-2`, then `OutputLayer(topology.back())`.
For an empty topology the constructor's `topology[0]` read is undefined
behaviour, modelled by the caller `construct` returning `none`. -/
def layerPlan (topology : List ℕ) : List (LayerKind × ℕ) :=
  match topology with
  | [] => []
  | t0 :: _ =>
    (LayerKind.input, t0)
      :: ((topology.drop 1).take (topology.length - 2)).map (fun c => (LayerKind.hidden, c))
      ++ [(LayerKind.output, topology.getLastD 0)]

/-- Allocate the layers of the plan with default-constructed neurons
(the `m_neurons.resize(numNeurons)` of each layer constructor). -/
def mkLayers (plan : List (LayerKind × ℕ)) : List Layer :=
  plan.map fun p => { kind := p.1, neurons := List.replicate p.2 defaultNeuron }

/-- The per-neuron body of `NeuralNetwork::initializeWeightsAndBiases`:
draw the bias, then one weight per predecessor neuron.  The
`std::normal_distribution<>(0.0, stddev)` draws from the seeded engine are
abstracted as `sd * g k` where `g` is the stream of standard draws and `k`
the running draw counter (the claims below depend only on the structure,
never on the drawn values). -/
noncomputable def initNeurons (g : ℕ → ℝ) (sd : ℝ) (prevCount : ℕ) :
    List Neuron → ℕ → List Neuron × ℕ
  | [], k => ([], k)
  | n :: ns, k =>
    let n' := { n with bias := sd * g k,
                       weights := (List.range prevCount).map fun j => sd * g (k + 1 + j) }
    let p := initNeurons g sd prevCount ns (k + 1 + prevCount)
    (n' :: p.1, p.2)

/-- The layer loop of `NeuralNetwork::initializeWeightsAndBiases` over the
non-input layers, with `stddev = sqrt(2 / (fan_in + fan_out))`. -/
noncomputable def initLayersAux (g : ℕ → ℝ) : List Layer → ℕ → ℕ → List Layer
  | [], _, _ => []
  | L :: Ls, prevCount, k =>
    let sd := Real.sqrt (2 / ((prevCount : ℝ) + (L.neurons.length : ℝ)))
    let p := initNeurons g sd prevCount L.neurons k
    { L with neurons := p.1 } :: initLayersAux g Ls L.neurons.length p.2

/-- Source `NeuralNetwork::initializeWeightsAndBiases`: the loop starts at
layer 1, so the input layer is untouched. -/
noncomputable def initializeWeightsAndBiases (g : ℕ → ℝ) (layers : List Layer) : List Layer :=
  match layers with
  | [] => []
  | L0 :: rest => L0 :: initLayersAux g rest L0.neurons.length 0

/-- Source `NeuralNetwork::NeuralNetwork(topology, learningRate)`.  The
constructor performs no validation; the only undefined behaviour is the
`topology[0]` read when the topology is empty, modelled as `none`. -/
noncomputable def construct (topology : List ℕ) (lr : ℝ) (g : ℕ → ℝ) : Option Network :=
  match topology with
  | [] => none
  | _ :: _ =>
    some { layers := initializeWeightsAndBiases g (mkLayers (layerPlan topology)),
           topology := topology, learningRate := lr }

/-- The loop of `NeuralNetwork::forwardPropagation` over layers `1 ..`:
each layer's `forward()` reads the neurons its predecessor just produced. -/
noncomputable def forwardLayers : List Neuron → List Layer → List Layer
  | _, [] => []
  | prev, L :: Ls =>
    let ns := layerForward prev L.neurons
    { L with neurons := ns } :: forwardLayers ns Ls

/-- Source `NeuralNetwork::forwardPropagation(input)`: load the input into
layer 0, then run `forward()` on every later layer in order. -/
noncomputable def forwardPropagation (net : Network) (input : List ℝ) : Network :=
  match net.layers with
  | [] => net
  | L0 :: rest =>
    let ns0 := loadInput input L0.neurons
    { net with layers := { L0 with neurons := ns0 } :: forwardLayers ns0 rest }

/-- The backward sweep of `NeuralNetwork::backPropagation` over the
non-input layers: `backwardParam(target)` on the last layer, then
`backward()` on layers `size-2` down to `1`, each reading the gradients its
successor just produced. -/
noncomputable def backwardPass : List Layer → List ℝ → List Layer
  | [], _ => []
  | [L], target => [{ L with neurons := loadTarget target L.neurons }]
  | L :: L' :: Ls, target =>
    let rest := backwardPass (L' :: Ls) target
    { L with neurons := hiddenBackward L.neurons (rest.headD defaultLayer).neurons } :: rest

/-- Source `NeuralNetwork::backPropagation(target)`: the input layer
(index 0) is excluded from the sweep. -/
noncomputable def backPropagation (net : Network) (target : List ℝ) : Network :=
  match net.layers with
  | [] => net
  | L0 :: rest => { net with layers := L0 :: backwardPass rest target }

/-- The loop of `NeuralNetwork::updateWeightsAndBiases` over layers `1 ..`;
`prevNeurons` is the state of layer `i-1` at the time layer `i` is
processed. -/
def updateLayersAux (lr : ℝ) : List Neuron → List Layer → List Layer
  | _, [] => []
  | prev, L :: Ls =>
    let ns := updateLayer lr prev L.neurons
    { L with neurons := ns } :: updateLayersAux lr ns Ls

/-- Source `NeuralNetwork::updateWeightsAndBiases()`: the loop starts at
layer 1, so the input layer is untouched. -/
def updateWeightsAndBiases (net : Network) : Network :=
  match net.layers with
  | [] => net
  | L0 :: rest => { net with layers := L0 :: updateLayersAux net.learningRate L0.neurons rest }

/-- Source `NeuralNetwork::predict(input)`: forward propagation, then a copy
of the output layer's activations.  The state change of the forward pass is
returned alongside the output vector. -/
noncomputable def predict (net : Network) (input : List ℝ) : Network × List ℝ :=
  let net' := forwardPropagation net input
  (net', (net'.layers.getLastD defaultLayer).neurons.map fun n => n.activation)

/-- The accumulation loop of `NeuralNetwork::calculateError`: the index runs
over `target.size()`, reading the output neurons positionally. -/
def sumSquaredError : List ℝ → List Neuron → ℝ
  | [], _ => 0
  | t :: ts, outs =>
    0.5 * (t - (outs.headD defaultNeuron).activation) ^ 2 + sumSquaredError ts outs.tail

/-- Source `NeuralNetwork::calculateError(target)`. -/
def calculateError (net : Network) (target : List ℝ) : ℝ :=
  sumSquaredError target (net.layers.getLastD defaultLayer).neurons

end kl

/-- Column `c` of a row-major matrix, as read by Eigen's `matrix.col(col)`
in `utils.cpp`. -/
def column (m : List (List ℝ)) (c : ℕ) : List ℝ :=
  m.map fun row => row.getD c 0

/-- Eigen's `minCoeff()` over a vector of values. -/
def minCoeff : List ℝ → ℝ
  | [] => 0
  | x :: xs => xs.foldl min x

/-- Eigen's `maxCoeff()` over a vector of values. -/
def maxCoeff : List ℝ → ℝ
  | [] => 0
  | x :: xs => xs.foldl max x

/-- The column loop of `normalizeInput` in `utils.cpp`, with the running
column index explicit: entry `c` becomes `(v - min) / (max - min)` from the
reference matrix's column-`c` extrema, or `0` for a constant column. -/
noncomputable def normalizeInputAux (reference : List (List ℝ)) : ℕ → List ℝ → List ℝ
  | _, [] => []
  | c, v :: vs =>
    let mn := minCoeff (column reference c)
    let mx := maxCoeff (column reference c)
    (if mx ≠ mn then (v - mn) / (mx - mn) else 0) :: normalizeInputAux reference (c + 1) vs

/-- Source `normalizeInput(input, reference)` of `utils.cpp`. -/
noncomputable def normalizeInput (input : List ℝ) (reference : List (List ℝ)) : List ℝ :=
  normalizeInputAux reference 0 input

/-- The per-row effect of the column-wise loop of `normalizeMatrix` in
`utils.cpp`: Eigen's whole-column assignment
`normalizedMatrix.col(col) = (matrix.col(col).array() - min) / (max - min)`
(or `setZero` for a constant column) sets entry `(r, c)` of every row `r`
from column `c`'s extrema. -/
noncomputable def normalizeRow (m : List (List ℝ)) : ℕ → List ℝ → List ℝ
  | _, [] => []
  | c, v :: vs =>
    let mn := minCoeff (column m c)
    let mx := maxCoeff (column m c)
    (if mx ≠ mn then (v - mn) / (mx - mn) else 0) :: normalizeRow m (c + 1) vs

/-- Source `normalizeMatrix(matrix)` of `utils.cpp`, row-major view of the
column-wise normalization. -/
noncomputable def normalizeMatrix (m : List (List ℝ)) : List (List ℝ) :=
  m.map (normalizeRow m 0)

/-! Facts about the real hyperbolic tangent needed below. -/

lemma tanh_lt_one (x : ℝ) : Real.tanh x < 1 := by
  rw [Real.tanh_eq_sinh_div_cosh, div_lt_one (Real.cosh_pos x)]
  exact Real.sinh_lt_cosh x

lemma neg_one_lt_tanh (x : ℝ) : -1 < Real.tanh x := by
  rw [Real.tanh_eq_sinh_div_cosh, lt_div_iff₀ (Real.cosh_pos x)]
  have h := Real.sinh_add_cosh x
  have h' := Real.exp_pos x
  linarith

lemma tanh_strictMono : StrictMono Real.tanh := by
  intro x y hxy
  rw [Real.tanh_eq_sinh_div_cosh, Real.tanh_eq_sinh_div_cosh,
    div_lt_div_iff₀ (Real.cosh_pos x) (Real.cosh_pos y)]
  have h : 0 < Real.sinh (y - x) := Real.sinh_pos_iff.mpr (by linarith)
  rw [Real.sinh_sub] at h
  nlinarith [h]

lemma tanh_pos {x : ℝ} (hx : 0 < x) : 0 < Real.tanh x := by
  have h := tanh_strictMono hx
  rwa [Real.tanh_zero] at h

/-- C2: the claim asserts `tanhDerivative(tanh x) = 1 - tanh(x)^2`, i.e. that
the derivative helper applied to the stored activation computes
`1 - activation^2`.  The source helper is
`1.0 - std::tanh(x) * std::tanh(x)`, which applies `tanh` to its argument
again, so at `x = 1` the pipeline computes `1 - tanh(tanh 1)^2`, which is
not `1 - tanh(1)^2`: the claimed identity fails on the code. -/
theorem tanhDerivative_at_activation_ne_true_derivative :
    kl.tanhDerivative (Real.tanh 1) ≠ 1 - Real.tanh 1 ^ 2 := by
  unfold kl.tanhDerivative
  intro h
  have h1 : Real.tanh 1 < 1 := tanh_lt_one 1
  have h0 : 0 < Real.tanh 1 := tanh_pos one_pos
  have h2 : Real.tanh (Real.tanh 1) < Real.tanh 1 := tanh_strictMono h1
  have h3 : 0 < Real.tanh (Real.tanh 1) := tanh_pos h0
  nlinarith [h, h2, h3]

/-! Generic list access helpers. -/

lemma listGetD_map {α β : Type} [Inhabited α] (l : List α) (f : α → β) (k : ℕ) (d : β)
    (h : k < l.length) : (l.map f).getD k d = f (l.getD k default) := by
  rw [List.getD_eq_getElem _ _ (by simpa using h), List.getElem_map,
    List.getD_eq_getElem _ _ h]

lemma listGetD_take {α : Type} (l : List α) (m k : ℕ) (d : α) (h : k < m) :
    (l.take m).getD k d = l.getD k d := by
  rcases Nat.lt_or_ge k l.length with h2 | h2
  · rw [List.getD_eq_getElem _ _ (by simp; omega), List.getD_eq_getElem _ _ h2,
      List.getElem_take]
  · rw [List.getD_eq_default _ _ (by simp; omega), List.getD_eq_default _ _ (by omega)]

lemma listGetLastD_eq_getD {α : Type} (l : List α) (hl : l ≠ []) (d : α) :
    l.getLastD d = l.getD (l.length - 1) d := by
  rw [List.getLastD_eq_getLast?, List.getLast?_eq_getLast l hl, List.getLast_eq_getElem,
    Option.getD_some, List.getD_eq_getElem _ _ (by cases l <;> simp_all)]

lemma listGetD_append_at {α : Type} (l l' : List α) (d : α) :
    (l ++ l').getD l.length d = l'.getD 0 d := by
  simp [List.getD_eq_getElem?_getD, List.getElem?_append_right (Nat.le_refl l.length)]

namespace kl

/-! Lengths of all per-layer operations. -/

@[simp] lemma loadInput_length (xs : List ℝ) (ns : List Neuron) :
    (loadInput xs ns).length = ns.length := by
  induction ns generalizing xs with
  | nil => simp [loadInput]
  | cons n ns ih => simp [loadInput, ih]

@[simp] lemma layerForward_length (prev cur : List Neuron) :
    (layerForward prev cur).length = cur.length := by
  simp [layerForward]

@[simp] lemma loadTarget_length (ts : List ℝ) (ns : List Neuron) :
    (loadTarget ts ns).length = ns.length := by
  induction ns generalizing ts with
  | nil => simp [loadTarget]
  | cons n ns ih => simp [loadTarget, ih]

@[simp] lemma hiddenBackwardAux_length (next : List Neuron) (i : ℕ) (ns : List Neuron) :
    (hiddenBackwardAux next i ns).length = ns.length := by
  induction ns generalizing i with
  | nil => simp [hiddenBackwardAux]
  | cons n ns ih => simp [hiddenBackwardAux, ih]

@[simp] lemma hiddenBackward_length (cur next : List Neuron) :
    (hiddenBackward cur next).length = cur.length := by
  simp [hiddenBackward]

@[simp] lemma updateWeights_length (lr g : ℝ) (ws : List ℝ) (prev : List Neuron) :
    (updateWeights lr g ws prev).length = ws.length := by
  induction ws generalizing prev with
  | nil => simp [updateWeights]
  | cons w ws ih => simp [updateWeights, ih]

@[simp] lemma updateLayer_length (lr : ℝ) (prev cur : List Neuron) :
    (updateLayer lr prev cur).length = cur.length := by
  simp [updateLayer]

@[simp] lemma forwardLayers_length (prev : List Neuron) (Ls : List Layer) :
    (forwardLayers prev Ls).length = Ls.length := by
  induction Ls generalizing prev with
  | nil => simp [forwardLayers]
  | cons L Ls ih => simp [forwardLayers, ih]

@[simp] lemma backwardPass_length (Ls : List Layer) (t : List ℝ) :
    (backwardPass Ls t).length = Ls.length := by
  induction Ls with
  | nil => simp [backwardPass]
  | cons L Ls ih =>
    cases Ls with
    | nil => simp [backwardPass]
    | cons L' Ls' => simp [backwardPass]; simpa using ih

@[simp] lemma updateLayersAux_length (lr : ℝ) (prev : List Neuron) (Ls : List Layer) :
    (updateLayersAux lr prev Ls).length = Ls.length := by
  induction Ls generalizing prev with
  | nil => simp [updateLayersAux]
  | cons L Ls ih => simp [updateLayersAux, ih]

@[simp] lemma initNeurons_length (g : ℕ → ℝ) (sd : ℝ) (pc : ℕ) (ns : List Neuron) (k : ℕ) :
    (initNeurons g sd pc ns k).1.length = ns.length := by
  induction ns generalizing k with
  | nil => simp [initNeurons]
  | cons n ns ih => simp [initNeurons, ih]

@[simp] lemma initLayersAux_length (g : ℕ → ℝ) (Ls : List Layer) (pc k : ℕ) :
    (initLayersAux g Ls pc k).length = Ls.length := by
  induction Ls generalizing pc k with
  | nil => simp [initLayersAux]
  | cons L Ls ih => simp [initLayersAux, ih]

@[simp] lemma initializeWeightsAndBiases_length (g : ℕ → ℝ) (layers : List Layer) :
    (initializeWeightsAndBiases g layers).length = layers.length := by
  cases layers <;> simp [initializeWeightsAndBiases]

@[simp] lemma mkLayers_length (plan : List (LayerKind × ℕ)) :
    (mkLayers plan).length = plan.length := by
  simp [mkLayers]

lemma layerPlan_length (topology : List ℕ) (h2 : 2 ≤ topology.length) :
    (layerPlan topology).length = topology.length := by
  cases topology with
  | nil => simp at h2
  | cons t0 rest =>
    simp only [layerPlan, List.length_cons, List.length_append, List.length_map,
      List.length_take, List.length_drop]
    simp at h2 ⊢
    omega

lemma layerPlan_getD (topology : List ℕ) (h2 : 2 ≤ topology.length) (k : ℕ)
    (hk : k < topology.length) :
    (layerPlan topology).getD k (LayerKind.input, 0) =
      (if k = 0 then LayerKind.input
       else if k = topology.length - 1 then LayerKind.output
       else LayerKind.hidden,
       topology.getD k 0) := by
  cases topology with
  | nil => simp at h2
  | cons t0 rest =>
    have hrest : 1 ≤ rest.length := by simp at h2; omega
    cases k with
    | zero =>
      rw [layerPlan]
      rw [List.getD_append _ _ _ _ (by simp)]
      simp
    | succ j =>
      rw [layerPlan]
      rcases Nat.lt_or_ge j (rest.length - 1) with hj | hj
      · rw [List.getD_append _ _ _ _ (by simp; omega), List.getD_cons_succ,
          listGetD_map _ _ _ _ (by simp; omega)]
        simp only [List.drop_succ_cons, List.drop_zero]
        rw [listGetD_take _ _ _ _ (by simp; omega)]
        simp only [List.getD_cons_succ]
        rw [if_neg (Nat.succ_ne_zero j), if_neg (show ¬ j + 1 = (t0 :: rest).length - 1 by
          simp; omega)]
        rfl
      · have hj' : j = rest.length - 1 := by simp at hk; omega
        have hlen : ((LayerKind.input, t0) ::
            (((t0 :: rest).drop 1).take ((t0 :: rest).length - 2)).map
              (fun c => (LayerKind.hidden, c))).length = j + 1 := by simp; omega
        have hat := listGetD_append_at ((LayerKind.input, t0) ::
            (((t0 :: rest).drop 1).take ((t0 :: rest).length - 2)).map
              (fun c => (LayerKind.hidden, c)))
          [(LayerKind.output, (t0 :: rest).getLastD 0)] (LayerKind.input, 0)
        rw [hlen] at hat
        rw [hat]
        have hlast : (t0 :: rest).getLastD 0 = (t0 :: rest).getD ((t0 :: rest).length - 1) 0 :=
          listGetLastD_eq_getD _ (by simp) 0
        have hj1 : j + 1 = (t0 :: rest).length - 1 := by simp; omega
        rw [List.getD_cons_zero, hlast]
        rw [if_neg (Nat.succ_ne_zero j), if_pos hj1, hj1]

lemma mkLayers_getD (plan : List (LayerKind × ℕ)) (k : ℕ) (hk : k < plan.length) :
    (mkLayers plan).getD k defaultLayer =
      { kind := (plan.getD k (LayerKind.input, 0)).1,
        neurons := List.replicate (plan.getD k (LayerKind.input, 0)).2 defaultNeuron } := by
  unfold mkLayers
  rw [List.getD_eq_getElem _ _ (by simpa using hk), List.getElem_map,
    List.getD_eq_getElem _ _ hk]

lemma initLayersAux_getD_kind (g : ℕ → ℝ) (Ls : List Layer) (pc k ℓ : ℕ) :
    ((initLayersAux g Ls pc k).getD ℓ defaultLayer).kind = (Ls.getD ℓ defaultLayer).kind := by
  induction Ls generalizing pc k ℓ with
  | nil => simp [initLayersAux]
  | cons L Ls ih =>
    cases ℓ with
    | zero => simp [initLayersAux]
    | succ m =>
      simp only [initLayersAux, List.getD_cons_succ]
      exact ih _ _ m

lemma initLayersAux_getD_count (g : ℕ → ℝ) (Ls : List Layer) (pc k ℓ : ℕ) :
    ((initLayersAux g Ls pc k).getD ℓ defaultLayer).neurons.length =
      (Ls.getD ℓ defaultLayer).neurons.length := by
  induction Ls generalizing pc k ℓ with
  | nil => simp [initLayersAux]
  | cons L Ls ih =>
    cases ℓ with
    | zero => simp [initLayersAux]
    | succ m =>
      simp only [initLayersAux, List.getD_cons_succ]
      exact ih _ _ m

lemma initializeWeightsAndBiases_getD_kind (g : ℕ → ℝ) (layers : List Layer) (ℓ : ℕ) :
    ((initializeWeightsAndBiases g layers).getD ℓ defaultLayer).kind =
      (layers.getD ℓ defaultLayer).kind := by
  cases layers with
  | nil => simp [initializeWeightsAndBiases]
  | cons L0 rest =>
    cases ℓ with
    | zero => simp [initializeWeightsAndBiases]
    | succ m =>
      simp only [initializeWeightsAndBiases, List.getD_cons_succ]
      exact initLayersAux_getD_kind g rest L0.neurons.length 0 m

lemma initializeWeightsAndBiases_getD_count (g : ℕ → ℝ) (layers : List Layer) (ℓ : ℕ) :
    ((initializeWeightsAndBiases g layers).getD ℓ defaultLayer).neurons.length =
      ((layers.getD ℓ defaultLayer).neurons).length := by
  cases layers with
  | nil => simp [initializeWeightsAndBiases]
  | cons L0 rest =>
    cases ℓ with
    | zero => simp [initializeWeightsAndBiases]
    | succ m =>
      simp only [initializeWeightsAndBiases, List.getD_cons_succ]
      exact initLayersAux_getD_count g rest L0.neurons.length 0 m

lemma construct_getD_spec (topology : List ℕ) (lr : ℝ) (g : ℕ → ℝ) (net : Network)
    (hc : construct topology lr g = some net) (h2 : 2 ≤ topology.length) (k : ℕ)
    (hk : k < topology.length) :
    (net.layers.getD k defaultLayer).kind =
      (if k = 0 then LayerKind.input
       else if k = topology.length - 1 then LayerKind.output else LayerKind.hidden)
    ∧ (net.layers.getD k defaultLayer).neurons.length = topology.getD k 0 := by
  cases topology with
  | nil => simp at h2
  | cons t0 rest =>
    rw [construct] at hc
    obtain rfl : _ = net := Option.some.inj hc
    have hplanlen : (layerPlan (t0 :: rest)).length = (t0 :: rest).length :=
      layerPlan_length _ h2
    constructor
    · rw [initializeWeightsAndBiases_getD_kind,
        mkLayers_getD _ _ (by rw [hplanlen]; exact hk),
        layerPlan_getD _ h2 k hk]
    · rw [initializeWeightsAndBiases_getD_count,
        mkLayers_getD _ _ (by rw [hplanlen]; exact hk)]
      simp only [layerPlan_getD _ h2 k hk, List.length_replicate]

/-- C1: the claim states that a topology with fewer than 2 entries or with a
zero entry makes the constructor fail fast with a descriptive error.  The
source constructor performs no validation at all: the single-entry topology
`[3]` silently yields a 2-layer network, and the zero-layer topology
`[2, 0, 1]` is accepted as well.  This theorem evaluates the embedded
constructor at those failing inputs. -/
theorem construct_accepts_malformed_topology :
    ((construct [3] (1 / 2) fun _ => 0).map fun net => net.layers.length) = some 2
    ∧ (construct [2, 0, 1] (1 / 2) fun _ => 0).isSome = true := by
  constructor
  · rw [show (construct [3] (1 / 2) fun _ => 0) = some
        { layers := initializeWeightsAndBiases (fun _ => 0) (mkLayers (layerPlan [3])),
          topology := [3], learningRate := 1 / 2 } from rfl]
    simp
    decide
  · rfl

/-- C6: for every topology with at least 2 entries, all positive,
construction succeeds and yields exactly `topology.length` layers, the
first an input layer, the last an output layer, all others hidden, where
layer `k` holds exactly `topology[k]` neurons. -/
theorem construct_valid_topology_shape (topology : List ℕ) (lr : ℝ) (g : ℕ → ℝ)
    (h2 : 2 ≤ topology.length) (hpos : ∀ t ∈ topology, 0 < t) :
    ∃ net, construct topology lr g = some net
      ∧ net.layers.length = topology.length
      ∧ (net.layers.getD 0 defaultLayer).kind = LayerKind.input
      ∧ (net.layers.getD (topology.length - 1) defaultLayer).kind = LayerKind.output
      ∧ (∀ k, 1 ≤ k → k + 1 < topology.length →
          (net.layers.getD k defaultLayer).kind = LayerKind.hidden)
      ∧ (∀ k, k < topology.length →
          (net.layers.getD k defaultLayer).neurons.length = topology.getD k 0) := by
  cases topology with
  | nil => simp at h2
  | cons t0 rest =>
    have hc : construct (t0 :: rest) lr g = some
        { layers := initializeWeightsAndBiases g (mkLayers (layerPlan (t0 :: rest))),
          topology := t0 :: rest, learningRate := lr } := rfl
    refine ⟨_, hc, ?_, ?_, ?_, ?_, ?_⟩
    · simp [layerPlan_length _ h2]
    · have h := construct_getD_spec _ lr g _ hc h2 0 (by simp)
      simpa using h.1
    · have h := construct_getD_spec _ lr g _ hc h2 ((t0 :: rest).length - 1) (by simp)
      rw [h.1, if_neg (show ¬ ((t0 :: rest).length - 1 = 0) by
        simp
        intro h
        subst h
        simp at h2), if_pos rfl]
    · intro k hk1 hk2
      have h := construct_getD_spec _ lr g _ hc h2 k (by omega)
      rw [h.1, if_neg (by omega), if_neg (by omega)]
    · intro k hk
      exact (construct_getD_spec _ lr g _ hc h2 k hk).2

/-- Witness for C6 at the XOR topology `[2, 3, 1]`. -/
theorem construct_valid_topology_shape_witness :
    2 ≤ ([2, 3, 1] : List ℕ).length ∧ (∀ t ∈ ([2, 3, 1] : List ℕ), 0 < t) ∧
    (∃ net, construct [2, 3, 1] (1 / 2) (fun _ => 0) = some net
      ∧ net.layers.length = ([2, 3, 1] : List ℕ).length
      ∧ (net.layers.getD 0 defaultLayer).kind = LayerKind.input
      ∧ (net.layers.getD (([2, 3, 1] : List ℕ).length - 1) defaultLayer).kind = LayerKind.output
      ∧ (∀ k, 1 ≤ k → k + 1 < ([2, 3, 1] : List ℕ).length →
          (net.layers.getD k defaultLayer).kind = LayerKind.hidden)
      ∧ (∀ k, k < ([2, 3, 1] : List ℕ).length →
          (net.layers.getD k defaultLayer).neurons.length = ([2, 3, 1] : List ℕ).getD k 0)) :=
  ⟨by decide, by decide,
    construct_valid_topology_shape [2, 3, 1] (1 / 2) (fun _ => 0) (by decide) (by decide)⟩

end kl

/-! More generic list access helpers. -/

lemma listHeadD_eq_getD {α : Type} (l : List α) (d : α) : l.headD d = l.getD 0 d := by
  cases l <;> rfl

lemma listGetD_tail {α : Type} (l : List α) (k : ℕ) (d : α) :
    l.tail.getD k d = l.getD (k + 1) d := by
  cases l <;> simp

namespace kl

lemma sumSquaredError_eq_sum (ts : List ℝ) (outs : List Neuron) :
    sumSquaredError ts outs =
      ∑ i ∈ Finset.range ts.length,
        0.5 * (ts.getD i 0 - (outs.getD i defaultNeuron).activation) ^ 2 := by
  induction ts generalizing outs with
  | nil => simp [sumSquaredError]
  | cons t ts ih =>
    rw [sumSquaredError, ih, List.length_cons, Finset.sum_range_succ']
    simp only [List.getD_cons_succ, List.getD_cons_zero, listGetD_tail, listHeadD_eq_getD]
    ring

/-- C3: with a target of the output layer's length, `calculateError` returns
the sum over output neurons of `0.5 * (target[i] - outputActivation[i])^2`
from the currently stored activations, and it returns exactly 0 when every
output activation equals the corresponding target entry. -/
theorem calculateError_spec (net : Network) (target : List ℝ)
    (h : target.length = (net.layers.getLastD defaultLayer).neurons.length) :
    calculateError net target =
      ∑ i ∈ Finset.range (net.layers.getLastD defaultLayer).neurons.length,
        0.5 * (target.getD i 0 -
          ((net.layers.getLastD defaultLayer).neurons.getD i defaultNeuron).activation) ^ 2
    ∧ ((∀ i < (net.layers.getLastD defaultLayer).neurons.length,
          ((net.layers.getLastD defaultLayer).neurons.getD i defaultNeuron).activation =
            target.getD i 0) →
        calculateError net target = 0) := by
  constructor
  · rw [calculateError, sumSquaredError_eq_sum, h]
  · intro hall
    rw [calculateError, sumSquaredError_eq_sum]
    apply Finset.sum_eq_zero
    intro i hi
    rw [Finset.mem_range] at hi
    rw [hall i (by rw [← h]; exact hi)]
    ring

/-- A concrete two-layer network (one input neuron, one output neuron with a
single weight) used as evaluation point by the witnesses below. -/
def exampleNet : Network :=
  { layers := [{ kind := LayerKind.input, neurons := [defaultNeuron] },
               { kind := LayerKind.output,
                 neurons := [{ value := 0, bias := 0, activation := 0, gradient := 0,
                               weights := [1] }] }],
    topology := [1, 1], learningRate := 1 }

/-- Witness for C3: the example network against the target `[0]`. -/
theorem calculateError_spec_witness :
    ([(0 : ℝ)] : List ℝ).length = (exampleNet.layers.getLastD defaultLayer).neurons.length
    ∧ (calculateError exampleNet [(0 : ℝ)] =
        ∑ i ∈ Finset.range (exampleNet.layers.getLastD defaultLayer).neurons.length,
          0.5 * (([(0 : ℝ)] : List ℝ).getD i 0 -
            ((exampleNet.layers.getLastD defaultLayer).neurons.getD i
              defaultNeuron).activation) ^ 2
      ∧ ((∀ i < (exampleNet.layers.getLastD defaultLayer).neurons.length,
            ((exampleNet.layers.getLastD defaultLayer).neurons.getD i
              defaultNeuron).activation = ([(0 : ℝ)] : List ℝ).getD i 0) →
          calculateError exampleNet [(0 : ℝ)] = 0)) :=
  ⟨rfl, calculateError_spec exampleNet [(0 : ℝ)] rfl⟩

lemma updateWeights_getD (lr g : ℝ) (ws : List ℝ) (prev : List Neuron) (j : ℕ)
    (hj : j < ws.length) :
    (updateWeights lr g ws prev).getD j 0 =
      ws.getD j 0 + lr * g * (prev.getD j defaultNeuron).activation := by
  induction ws generalizing prev j with
  | nil => simp at hj
  | cons w ws ih =>
    cases j with
    | zero =>
      simp only [updateWeights, List.getD_cons_zero, listHeadD_eq_getD]
    | succ m =>
      simp only [updateWeights, List.getD_cons_succ]
      rw [ih prev.tail m (by simpa using hj), listGetD_tail]

lemma updateLayer_getD (lr : ℝ) (prev cur : List Neuron) (k : ℕ) (hk : k < cur.length) :
    (updateLayer lr prev cur).getD k defaultNeuron =
      { cur.getD k defaultNeuron with
        weights := updateWeights lr (cur.getD k defaultNeuron).gradient
          (cur.getD k defaultNeuron).weights prev,
        bias := (cur.getD k defaultNeuron).bias + lr * (cur.getD k defaultNeuron).gradient } := by
  unfold updateLayer
  rw [List.getD_eq_getElem _ _ (by simpa using hk), List.getElem_map,
    List.getD_eq_getElem _ _ hk]

lemma updateLayer_activation (lr : ℝ) (prev cur : List Neuron) (k : ℕ) :
    ((updateLayer lr prev cur).getD k defaultNeuron).activation =
      (cur.getD k defaultNeuron).activation := by
  rcases Nat.lt_or_ge k cur.length with hk | hk
  · rw [updateLayer_getD lr prev cur k hk]
  · rw [List.getD_eq_default _ _ (by simpa using hk), List.getD_eq_default _ _ hk]

lemma updateWeights_prev_act (lr g : ℝ) (ws : List ℝ) (prev₁ prev₂ : List Neuron)
    (hact : ∀ j, (prev₁.getD j defaultNeuron).activation =
      (prev₂.getD j defaultNeuron).activation) :
    updateWeights lr g ws prev₁ = updateWeights lr g ws prev₂ := by
  induction ws generalizing prev₁ prev₂ with
  | nil => rfl
  | cons w ws ih =>
    simp only [updateWeights]
    rw [listHeadD_eq_getD, listHeadD_eq_getD, hact 0,
      ih prev₁.tail prev₂.tail (by
        intro j
        rw [listGetD_tail, listGetD_tail]
        exact hact (j + 1))]

lemma updateLayer_prev_act (lr : ℝ) (cur prev₁ prev₂ : List Neuron)
    (hact : ∀ j, (prev₁.getD j defaultNeuron).activation =
      (prev₂.getD j defaultNeuron).activation) :
    updateLayer lr prev₁ cur = updateLayer lr prev₂ cur := by
  unfold updateLayer
  congr 1
  funext n
  rw [updateWeights_prev_act lr n.gradient n.weights prev₁ prev₂ hact]

lemma updateLayersAux_getD (lr : ℝ) (Ls : List Layer) (prev₁ prev₂ : List Neuron) (m : ℕ)
    (hact : ∀ j, (prev₁.getD j defaultNeuron).activation =
      (prev₂.getD j defaultNeuron).activation)
    (hm : m < Ls.length) :
    (updateLayersAux lr prev₁ Ls).getD m defaultLayer =
      { Ls.getD m defaultLayer with
        neurons := updateLayer lr
          (if m = 0 then prev₂ else (Ls.getD (m - 1) defaultLayer).neurons)
          (Ls.getD m defaultLayer).neurons } := by
  induction Ls generalizing prev₁ prev₂ m with
  | nil => simp at hm
  | cons L Ls ih =>
    cases m with
    | zero =>
      simp only [updateLayersAux, List.getD_cons_zero]
      rw [updateLayer_prev_act lr L.neurons prev₁ prev₂ hact]
      simp
    | succ m' =>
      simp only [updateLayersAux, List.getD_cons_succ]
      rw [ih (updateLayer lr prev₁ L.neurons) L.neurons m'
        (fun j => updateLayer_activation lr prev₁ L.neurons j) (by simpa using hm)]
      cases m' with
      | zero => simp
      | succ m'' => simp

/-- C4: `updateWeightsAndBiases`, for every non-input layer `i`, neuron `k`
and weight index `j`, replaces `weight[j]` by
`weight[j] + learningRate * gradient * predecessor neuron j's activation`
and the bias by `bias + learningRate * gradient`, leaving the input layer
untouched. -/
theorem updateWeightsAndBiases_spec (net : Network) (i k j : ℕ)
    (hi1 : 1 ≤ i) (hi2 : i < net.layers.length)
    (hk : k < (net.layers.getD i defaultLayer).neurons.length)
    (hj : j < ((net.layers.getD i defaultLayer).neurons.getD k defaultNeuron).weights.length) :
    ((((updateWeightsAndBiases net).layers.getD i defaultLayer).neurons.getD k
        defaultNeuron).weights.getD j 0 =
      ((net.layers.getD i defaultLayer).neurons.getD k defaultNeuron).weights.getD j 0
        + net.learningRate
          * ((net.layers.getD i defaultLayer).neurons.getD k defaultNeuron).gradient
          * ((net.layers.getD (i - 1) defaultLayer).neurons.getD j defaultNeuron).activation)
    ∧ ((((updateWeightsAndBiases net).layers.getD i defaultLayer).neurons.getD k
        defaultNeuron).bias =
      ((net.layers.getD i defaultLayer).neurons.getD k defaultNeuron).bias
        + net.learningRate
          * ((net.layers.getD i defaultLayer).neurons.getD k defaultNeuron).gradient)
    ∧ (updateWeightsAndBiases net).layers.getD 0 defaultLayer =
        net.layers.getD 0 defaultLayer := by
  cases hL : net.layers with
  | nil => rw [hL] at hi2; simp at hi2
  | cons L0 rest =>
    have hupd : updateWeightsAndBiases net =
        { net with layers := L0 :: updateLayersAux net.learningRate L0.neurons rest } := by
      unfold updateWeightsAndBiases
      rw [hL]
    cases i with
    | zero => omega
    | succ m =>
      have hm : m < rest.length := by rw [hL] at hi2; simpa using hi2
      have hlayer : ((updateWeightsAndBiases net).layers.getD (m + 1) defaultLayer) =
          { rest.getD m defaultLayer with
            neurons := updateLayer net.learningRate
              (if m = 0 then L0.neurons else (rest.getD (m - 1) defaultLayer).neurons)
              (rest.getD m defaultLayer).neurons } := by
        rw [hupd]
        simp only [List.getD_cons_succ]
        exact updateLayersAux_getD net.learningRate rest L0.neurons L0.neurons m
          (fun _ => rfl) hm
      have hPm : (if m = 0 then L0.neurons else (rest.getD (m - 1) defaultLayer).neurons) =
          (net.layers.getD m defaultLayer).neurons := by
        cases m with
        | zero => rw [hL]; simp
        | succ m'' => rw [hL]; simp [List.getD_cons_succ]
      have hcur : (net.layers.getD (m + 1) defaultLayer) = rest.getD m defaultLayer := by
        rw [hL, List.getD_cons_succ]
      rw [hcur] at hk hj
      have hneuron : (((updateWeightsAndBiases net).layers.getD (m + 1) defaultLayer).neurons.getD
          k defaultNeuron) =
          { (rest.getD m defaultLayer).neurons.getD k defaultNeuron with
            weights := updateWeights net.learningRate
              (((rest.getD m defaultLayer).neurons.getD k defaultNeuron)).gradient
              (((rest.getD m defaultLayer).neurons.getD k defaultNeuron)).weights
              (net.layers.getD m defaultLayer).neurons,
            bias := ((rest.getD m defaultLayer).neurons.getD k defaultNeuron).bias
              + net.learningRate
                * ((rest.getD m defaultLayer).neurons.getD k defaultNeuron).gradient } := by
        rw [hlayer]
        simp only
        rw [hPm] at hlayer ⊢
        exact updateLayer_getD net.learningRate _ _ k hk
      refine ⟨?_, ?_, ?_⟩
      · rw [hneuron]
        simp only
        rw [updateWeights_getD _ _ _ _ j hj, hL]
        simp [List.getD_cons_succ]
      · rw [hneuron]
        simp [List.getD_cons_succ]
      · rw [hupd]
        simp

/-- Witness for C4 on the example network at layer 1, neuron 0, weight 0. -/
theorem updateWeightsAndBiases_spec_witness :
    1 ≤ 1 ∧ 1 < exampleNet.layers.length
    ∧ 0 < (exampleNet.layers.getD 1 defaultLayer).neurons.length
    ∧ 0 < ((exampleNet.layers.getD 1 defaultLayer).neurons.getD 0 defaultNeuron).weights.length
    ∧ (((((updateWeightsAndBiases exampleNet).layers.getD 1 defaultLayer).neurons.getD 0
        defaultNeuron).weights.getD 0 0 =
      ((exampleNet.layers.getD 1 defaultLayer).neurons.getD 0 defaultNeuron).weights.getD 0 0
        + exampleNet.learningRate
          * ((exampleNet.layers.getD 1 defaultLayer).neurons.getD 0 defaultNeuron).gradient
          * ((exampleNet.layers.getD 0 defaultLayer).neurons.getD 0 defaultNeuron).activation)
    ∧ ((((updateWeightsAndBiases exampleNet).layers.getD 1 defaultLayer).neurons.getD 0
        defaultNeuron).bias =
      ((exampleNet.layers.getD 1 defaultLayer).neurons.getD 0 defaultNeuron).bias
        + exampleNet.learningRate
          * ((exampleNet.layers.getD 1 defaultLayer).neurons.getD 0 defaultNeuron).gradient)
    ∧ (updateWeightsAndBiases exampleNet).layers.getD 0 defaultLayer =
        exampleNet.layers.getD 0 defaultLayer) :=
  ⟨le_refl 1, by simp [exampleNet], by simp [exampleNet], by simp [exampleNet],
    updateWeightsAndBiases_spec exampleNet 1 0 0 (le_refl 1) (by simp [exampleNet])
      (by simp [exampleNet]) (by simp [exampleNet])⟩

lemma loadTarget_getD (ts : List ℝ) (ns : List Neuron) (k : ℕ) (hk : k < ns.length) :
    (loadTarget ts ns).getD k defaultNeuron =
      { ns.getD k defaultNeuron with
        gradient := (ts.getD k 0 - (ns.getD k defaultNeuron).activation)
          * tanhDerivative (ns.getD k defaultNeuron).activation } := by
  induction ns generalizing ts k with
  | nil => simp at hk
  | cons n ns ih =>
    cases k with
    | zero => simp only [loadTarget, List.getD_cons_zero, listHeadD_eq_getD]
    | succ m =>
      simp only [loadTarget, List.getD_cons_succ]
      rw [ih ts.tail m (by simpa using hk), listGetD_tail]

lemma hiddenBackwardAux_getD (next ns : List Neuron) (i k : ℕ) (hk : k < ns.length) :
    (hiddenBackwardAux next i ns).getD k defaultNeuron =
      { ns.getD k defaultNeuron with
        gradient := downstreamGradientSum (i + k) next
          * tanhDerivative (ns.getD k defaultNeuron).activation } := by
  induction ns generalizing i k with
  | nil => simp at hk
  | cons n ns ih =>
    cases k with
    | zero => simp [hiddenBackwardAux]
    | succ m =>
      simp only [hiddenBackwardAux, List.getD_cons_succ]
      rw [ih (i + 1) m (by simpa using hk)]
      have harith : i + 1 + m = i + (m + 1) := by omega
      rw [harith]

lemma hiddenBackward_getD (cur next : List Neuron) (k : ℕ) (hk : k < cur.length) :
    (hiddenBackward cur next).getD k defaultNeuron =
      { cur.getD k defaultNeuron with
        gradient := downstreamGradientSum k next
          * tanhDerivative (cur.getD k defaultNeuron).activation } := by
  unfold hiddenBackward
  rw [hiddenBackwardAux_getD next cur 0 k hk, Nat.zero_add]

lemma loadTarget_frame (ts : List ℝ) (ns : List Neuron) (k : ℕ) :
    ((loadTarget ts ns).getD k defaultNeuron).value = (ns.getD k defaultNeuron).value
    ∧ ((loadTarget ts ns).getD k defaultNeuron).bias = (ns.getD k defaultNeuron).bias
    ∧ ((loadTarget ts ns).getD k defaultNeuron).activation =
        (ns.getD k defaultNeuron).activation
    ∧ ((loadTarget ts ns).getD k defaultNeuron).weights = (ns.getD k defaultNeuron).weights := by
  rcases Nat.lt_or_ge k ns.length with hk | hk
  · rw [loadTarget_getD ts ns k hk]
    exact ⟨rfl, rfl, rfl, rfl⟩
  · rw [List.getD_eq_default _ _ (by simpa using hk), List.getD_eq_default _ _ hk]
    exact ⟨rfl, rfl, rfl, rfl⟩

lemma hiddenBackward_frame (cur next : List Neuron) (k : ℕ) :
    ((hiddenBackward cur next).getD k defaultNeuron).value = (cur.getD k defaultNeuron).value
    ∧ ((hiddenBackward cur next).getD k defaultNeuron).bias = (cur.getD k defaultNeuron).bias
    ∧ ((hiddenBackward cur next).getD k defaultNeuron).activation =
        (cur.getD k defaultNeuron).activation
    ∧ ((hiddenBackward cur next).getD k defaultNeuron).weights =
        (cur.getD k defaultNeuron).weights := by
  rcases Nat.lt_or_ge k cur.length with hk | hk
  · rw [hiddenBackward_getD cur next k hk]
    exact ⟨rfl, rfl, rfl, rfl⟩
  · rw [List.getD_eq_default _ _ (by simpa using hk), List.getD_eq_default _ _ hk]
    exact ⟨rfl, rfl, rfl, rfl⟩

lemma backwardPass_frame (Ls : List Layer) (t : List ℝ) (ℓ k : ℕ) :
    ((backwardPass Ls t).getD ℓ defaultLayer).kind = (Ls.getD ℓ defaultLayer).kind
    ∧ ((backwardPass Ls t).getD ℓ defaultLayer).neurons.length =
        (Ls.getD ℓ defaultLayer).neurons.length
    ∧ (((backwardPass Ls t).getD ℓ defaultLayer).neurons.getD k defaultNeuron).value =
        ((Ls.getD ℓ defaultLayer).neurons.getD k defaultNeuron).value
    ∧ (((backwardPass Ls t).getD ℓ defaultLayer).neurons.getD k defaultNeuron).bias =
        ((Ls.getD ℓ defaultLayer).neurons.getD k defaultNeuron).bias
    ∧ (((backwardPass Ls t).getD ℓ defaultLayer).neurons.getD k defaultNeuron).activation =
        ((Ls.getD ℓ defaultLayer).neurons.getD k defaultNeuron).activation
    ∧ (((backwardPass Ls t).getD ℓ defaultLayer).neurons.getD k defaultNeuron).weights =
        ((Ls.getD ℓ defaultLayer).neurons.getD k defaultNeuron).weights := by
  induction Ls generalizing ℓ with
  | nil => simp [backwardPass]
  | cons L Ls ih =>
    cases Ls with
    | nil =>
      cases ℓ with
      | zero =>
        refine ⟨by simp [backwardPass], by simp [backwardPass], ?_⟩
        simp only [backwardPass, List.getD_cons_zero]
        exact loadTarget_frame t L.neurons k
      | succ m => simp [backwardPass, List.getD_cons_succ]
    | cons L' Ls' =>
      cases ℓ with
      | zero =>
        refine ⟨by simp [backwardPass], by simp [backwardPass], ?_⟩
        simp only [backwardPass, List.getD_cons_zero]
        exact hiddenBackward_frame L.neurons _ k
      | succ m =>
        simp only [backwardPass, List.getD_cons_succ]
        exact ih m

lemma backwardPass_getLast (Ls : List Layer) (t : List ℝ) (h : Ls ≠ []) :
    (backwardPass Ls t).getD (Ls.length - 1) defaultLayer =
      { Ls.getD (Ls.length - 1) defaultLayer with
        neurons := loadTarget t ((Ls.getD (Ls.length - 1) defaultLayer).neurons) } := by
  induction Ls with
  | nil => simp at h
  | cons L Ls ih =>
    cases Ls with
    | nil => simp [backwardPass]
    | cons L' Ls' =>
      have hlen : (L :: L' :: Ls').length - 1 = (L' :: Ls').length - 1 + 1 := by
        simp
      rw [hlen]
      simp only [backwardPass, List.getD_cons_succ]
      exact ih (by simp)

lemma backwardPass_getD_mid (Ls : List Layer) (t : List ℝ) (ℓ : ℕ) (hℓ : ℓ + 1 < Ls.length) :
    (backwardPass Ls t).getD ℓ defaultLayer =
      { Ls.getD ℓ defaultLayer with
        neurons := hiddenBackward (Ls.getD ℓ defaultLayer).neurons
          ((backwardPass Ls t).getD (ℓ + 1) defaultLayer).neurons } := by
  induction Ls generalizing ℓ with
  | nil => simp at hℓ
  | cons L Ls ih =>
    cases Ls with
    | nil => simp at hℓ
    | cons L' Ls' =>
      cases ℓ with
      | zero =>
        simp only [backwardPass, List.getD_cons_zero, List.getD_cons_succ]
        rw [listHeadD_eq_getD]
      | succ m =>
        simp only [backwardPass, List.getD_cons_succ]
        exact ih m (by simpa using hℓ)

/-- C5: `backPropagation(target)` sets each output neuron's gradient to
`(target[i] - activation_i) * tanhDerivative(activation_i)` and then, for
each hidden layer in reverse order, sets each neuron's gradient to the sum
over successor neurons of `successor weight at i * successor gradient`,
times `tanhDerivative` of the neuron's stored activation (the successor
gradients being the ones just computed by the sweep). -/
theorem backPropagation_spec (net : Network) (target : List ℝ)
    (h2 : 2 ≤ net.layers.length)
    (htar : target.length = (net.layers.getLastD defaultLayer).neurons.length) :
    (∀ i < (net.layers.getLastD defaultLayer).neurons.length,
      (((backPropagation net target).layers.getLastD defaultLayer).neurons.getD i
        defaultNeuron).gradient =
        (target.getD i 0 -
          ((net.layers.getLastD defaultLayer).neurons.getD i defaultNeuron).activation)
          * tanhDerivative
            ((net.layers.getLastD defaultLayer).neurons.getD i defaultNeuron).activation)
    ∧ (∀ ℓ, 1 ≤ ℓ → ℓ + 1 < net.layers.length →
        ∀ i < (net.layers.getD ℓ defaultLayer).neurons.length,
          (((backPropagation net target).layers.getD ℓ defaultLayer).neurons.getD i
            defaultNeuron).gradient =
            downstreamGradientSum i
              (((backPropagation net target).layers.getD (ℓ + 1) defaultLayer).neurons)
              * tanhDerivative
                ((net.layers.getD ℓ defaultLayer).neurons.getD i defaultNeuron).activation) := by
  cases hL : net.layers with
  | nil => rw [hL] at h2; simp at h2
  | cons L0 rest =>
    have hrlen : 1 ≤ rest.length := by rw [hL] at h2; simpa using h2
    have hbp : (backPropagation net target).layers = L0 :: backwardPass rest target := by
      unfold backPropagation
      rw [hL]
    have hbplen : (backwardPass rest target).length = rest.length :=
      backwardPass_length rest target
    have hout : (L0 :: rest).getLastD defaultLayer = rest.getD (rest.length - 1) defaultLayer := by
      rw [listGetLastD_eq_getD _ (by simp) _]
      have hidx : (L0 :: rest).length - 1 = (rest.length - 1) + 1 := by simp; omega
      rw [hidx, List.getD_cons_succ]
    have hout' : (L0 :: backwardPass rest target).getLastD defaultLayer =
        (backwardPass rest target).getD (rest.length - 1) defaultLayer := by
      rw [listGetLastD_eq_getD _ (by simp) _]
      have hidx : (L0 :: backwardPass rest target).length - 1 = (rest.length - 1) + 1 := by
        simp [hbplen]; omega
      rw [hidx, List.getD_cons_succ]
    have hlast := backwardPass_getLast rest target
      (by intro hc; rw [hc] at hrlen; simp at hrlen)
    constructor
    · intro i hi
      rw [hout] at hi
      rw [hbp, hout', hlast, hout]
      simp only
      rw [loadTarget_getD target _ i hi]
    · intro ℓ hℓ1 hℓ2 i hi
      cases ℓ with
      | zero => omega
      | succ m =>
        have hm : m + 1 < rest.length := by simpa using hℓ2
        rw [List.getD_cons_succ] at hi
        rw [hbp]
        simp only [List.getD_cons_succ]
        rw [backwardPass_getD_mid rest target m (by omega)]
        simp only
        rw [hiddenBackward_getD _ _ i hi]

/-- Witness for C5 on the example network against target `[0]`. -/
theorem backPropagation_spec_witness :
    2 ≤ exampleNet.layers.length
    ∧ ([(0 : ℝ)] : List ℝ).length = (exampleNet.layers.getLastD defaultLayer).neurons.length
    ∧ ((∀ i < (exampleNet.layers.getLastD defaultLayer).neurons.length,
        (((backPropagation exampleNet [(0 : ℝ)]).layers.getLastD defaultLayer).neurons.getD i
          defaultNeuron).gradient =
          (([(0 : ℝ)] : List ℝ).getD i 0 -
            ((exampleNet.layers.getLastD defaultLayer).neurons.getD i defaultNeuron).activation)
            * tanhDerivative
              ((exampleNet.layers.getLastD defaultLayer).neurons.getD i
                defaultNeuron).activation)
      ∧ (∀ ℓ, 1 ≤ ℓ → ℓ + 1 < exampleNet.layers.length →
          ∀ i < (exampleNet.layers.getD ℓ defaultLayer).neurons.length,
            (((backPropagation exampleNet [(0 : ℝ)]).layers.getD ℓ defaultLayer).neurons.getD i
              defaultNeuron).gradient =
              downstreamGradientSum i
                (((backPropagation exampleNet [(0 : ℝ)]).layers.getD (ℓ + 1)
                  defaultLayer).neurons)
                * tanhDerivative
                  ((exampleNet.layers.getD ℓ defaultLayer).neurons.getD i
                    defaultNeuron).activation)) :=
  ⟨by simp [exampleNet], rfl, backPropagation_spec exampleNet [(0 : ℝ)] (by simp [exampleNet]) rfl⟩

/-- C9: `backPropagation` mutates only gradients: layer count, layer kinds,
neuron counts, and every neuron's value, bias, activation and weights are
unchanged, and the input layer (index 0) is untouched entirely. -/
theorem backPropagation_frame_spec (net : Network) (target : List ℝ)
    (htar : target.length = (net.layers.getLastD defaultLayer).neurons.length) :
    (backPropagation net target).layers.length = net.layers.length
    ∧ (backPropagation net target).layers.getD 0 defaultLayer = net.layers.getD 0 defaultLayer
    ∧ ∀ ℓ k,
        ((backPropagation net target).layers.getD ℓ defaultLayer).kind =
          (net.layers.getD ℓ defaultLayer).kind
        ∧ ((backPropagation net target).layers.getD ℓ defaultLayer).neurons.length =
          (net.layers.getD ℓ defaultLayer).neurons.length
        ∧ (((backPropagation net target).layers.getD ℓ defaultLayer).neurons.getD k
            defaultNeuron).value =
          ((net.layers.getD ℓ defaultLayer).neurons.getD k defaultNeuron).value
        ∧ (((backPropagation net target).layers.getD ℓ defaultLayer).neurons.getD k
            defaultNeuron).bias =
          ((net.layers.getD ℓ defaultLayer).neurons.getD k defaultNeuron).bias
        ∧ (((backPropagation net target).layers.getD ℓ defaultLayer).neurons.getD k
            defaultNeuron).activation =
          ((net.layers.getD ℓ defaultLayer).neurons.getD k defaultNeuron).activation
        ∧ (((backPropagation net target).layers.getD ℓ defaultLayer).neurons.getD k
            defaultNeuron).weights =
          ((net.layers.getD ℓ defaultLayer).neurons.getD k defaultNeuron).weights := by
  cases hL : net.layers with
  | nil =>
    have hbp : backPropagation net target = net := by
      unfold backPropagation
      rw [hL]
    rw [hbp, hL]
    simp
  | cons L0 rest =>
    have hbp : (backPropagation net target).layers = L0 :: backwardPass rest target := by
      unfold backPropagation
      rw [hL]
    refine ⟨?_, ?_, ?_⟩
    · rw [hbp]
      simp
    · rw [hbp]
      simp
    · intro ℓ k
      cases ℓ with
      | zero =>
        rw [hbp]
        simp
      | succ m =>
        rw [hbp]
        simp only [List.getD_cons_succ]
        exact backwardPass_frame rest target m k

/-- Witness for C9 on the example network against target `[0]`. -/
theorem backPropagation_frame_spec_witness :
    ([(0 : ℝ)] : List ℝ).length = (exampleNet.layers.getLastD defaultLayer).neurons.length
    ∧ ((backPropagation exampleNet [(0 : ℝ)]).layers.length = exampleNet.layers.length
    ∧ (backPropagation exampleNet [(0 : ℝ)]).layers.getD 0 defaultLayer =
        exampleNet.layers.getD 0 defaultLayer
    ∧ ∀ ℓ k,
        ((backPropagation exampleNet [(0 : ℝ)]).layers.getD ℓ defaultLayer).kind =
          (exampleNet.layers.getD ℓ defaultLayer).kind
        ∧ ((backPropagation exampleNet [(0 : ℝ)]).layers.getD ℓ defaultLayer).neurons.length =
          (exampleNet.layers.getD ℓ defaultLayer).neurons.length
        ∧ (((backPropagation exampleNet [(0 : ℝ)]).layers.getD ℓ defaultLayer).neurons.getD k
            defaultNeuron).value =
          ((exampleNet.layers.getD ℓ defaultLayer).neurons.getD k defaultNeuron).value
        ∧ (((backPropagation exampleNet [(0 : ℝ)]).layers.getD ℓ defaultLayer).neurons.getD k
            defaultNeuron).bias =
          ((exampleNet.layers.getD ℓ defaultLayer).neurons.getD k defaultNeuron).bias
        ∧ (((backPropagation exampleNet [(0 : ℝ)]).layers.getD ℓ defaultLayer).neurons.getD k
            defaultNeuron).activation =
          ((exampleNet.layers.getD ℓ defaultLayer).neurons.getD k defaultNeuron).activation
        ∧ (((backPropagation exampleNet [(0 : ℝ)]).layers.getD ℓ defaultLayer).neurons.getD k
            defaultNeuron).weights =
          ((exampleNet.layers.getD ℓ defaultLayer).neurons.getD k defaultNeuron).weights) :=
  ⟨rfl, backPropagation_frame_spec exampleNet [(0 : ℝ)] rfl⟩

lemma loadInput_idem (xs : List ℝ) (ns : List Neuron) :
    loadInput xs (loadInput xs ns) = loadInput xs ns := by
  induction ns generalizing xs with
  | nil => rfl
  | cons n ns ih => simp [loadInput, ih]

lemma layerForward_overwrite (prev prev' cur : List Neuron) :
    layerForward prev (layerForward prev' cur) = layerForward prev cur := by
  induction cur with
  | nil => rfl
  | cons n ns ih => simp [layerForward] at ih ⊢

lemma forwardLayers_idem (prev : List Neuron) (Ls : List Layer) :
    forwardLayers prev (forwardLayers prev Ls) = forwardLayers prev Ls := by
  induction Ls generalizing prev with
  | nil => rfl
  | cons L Ls ih =>
    simp only [forwardLayers]
    rw [layerForward_overwrite, ih]

lemma forwardPropagation_idem (net : Network) (input : List ℝ) :
    forwardPropagation (forwardPropagation net input) input = forwardPropagation net input := by
  cases hL : net.layers with
  | nil =>
    have h1 : forwardPropagation net input = net := by
      unfold forwardPropagation
      rw [hL]
    simp only [h1]
  | cons L0 rest =>
    have h1 : forwardPropagation net input =
        { net with layers := { L0 with neurons := loadInput input L0.neurons }
          :: forwardLayers (loadInput input L0.neurons) rest } := by
      unfold forwardPropagation
      rw [hL]
    rw [h1]
    unfold forwardPropagation
    simp only
    rw [loadInput_idem, forwardLayers_idem]

/-- C7: calling `predict` twice in a row with the same input on an
unmodified network returns identical output vectors, since the forward pass
deterministically recomputes every activation from the input and the
unchanged weights and biases. -/
theorem predict_idempotent (net : Network) (input : List ℝ)
    (h : input.length = (net.layers.getD 0 defaultLayer).neurons.length) :
    (predict (predict net input).1 input).2 = (predict net input).2 := by
  unfold predict
  simp only
  rw [forwardPropagation_idem]

/-- Witness for C7 on the example network with input `[0]`. -/
theorem predict_idempotent_witness :
    ([(0 : ℝ)] : List ℝ).length = (exampleNet.layers.getD 0 defaultLayer).neurons.length
    ∧ (predict (predict exampleNet [(0 : ℝ)]).1 [(0 : ℝ)]).2 = (predict exampleNet [(0 : ℝ)]).2 :=
  ⟨rfl, predict_idempotent exampleNet [(0 : ℝ)] rfl⟩

lemma layerForward_getD (prev cur : List Neuron) (k : ℕ) (hk : k < cur.length) :
    (layerForward prev cur).getD k defaultNeuron =
      { cur.getD k defaultNeuron with
        activation := tanhActivation
          (weightedContrib prev (cur.getD k defaultNeuron).weights
            + (cur.getD k defaultNeuron).bias) } := by
  unfold layerForward
  rw [List.getD_eq_getElem _ _ (by simpa using hk), List.getElem_map,
    List.getD_eq_getElem _ _ hk]

lemma forwardLayers_act (Ls : List Layer) (prev : List Neuron) (ℓ k : ℕ)
    (hℓ : ℓ < Ls.length)
    (hk : k < ((forwardLayers prev Ls).getD ℓ defaultLayer).neurons.length) :
    ∃ y, (((forwardLayers prev Ls).getD ℓ defaultLayer).neurons.getD k
      defaultNeuron).activation = Real.tanh y := by
  induction Ls generalizing prev ℓ with
  | nil => simp at hℓ
  | cons L Ls ih =>
    cases ℓ with
    | zero =>
      simp only [forwardLayers, List.getD_cons_zero] at hk ⊢
      rw [layerForward_getD prev L.neurons k (by simpa using hk)]
      exact ⟨_, rfl⟩
    | succ m =>
      simp only [forwardLayers, List.getD_cons_succ] at hk ⊢
      exact ih _ m (by simpa using hℓ) hk

/-- C10: after a forward pass with an input of the input layer's length,
every activation stored in every non-input layer lies in the open interval
(-1, 1), being the image of the real hyperbolic tangent. -/
theorem forwardPropagation_act_bounds (net : Network) (input : List ℝ)
    (h : input.length = (net.layers.getD 0 defaultLayer).neurons.length) :
    ∀ ℓ, 1 ≤ ℓ → ℓ < net.layers.length →
      ∀ k < ((forwardPropagation net input).layers.getD ℓ defaultLayer).neurons.length,
        -1 < (((forwardPropagation net input).layers.getD ℓ defaultLayer).neurons.getD k
          defaultNeuron).activation
        ∧ (((forwardPropagation net input).layers.getD ℓ defaultLayer).neurons.getD k
          defaultNeuron).activation < 1 := by
  intro ℓ hℓ1 hℓ2 k hk
  cases hL : net.layers with
  | nil => rw [hL] at hℓ2; simp at hℓ2
  | cons L0 rest =>
    have hfwd : (forwardPropagation net input).layers =
        { L0 with neurons := loadInput input L0.neurons }
          :: forwardLayers (loadInput input L0.neurons) rest := by
      unfold forwardPropagation
      rw [hL]
    cases ℓ with
    | zero => omega
    | succ m =>
      rw [hfwd, List.getD_cons_succ] at hk ⊢
      have hm : m < rest.length := by rw [hL] at hℓ2; simpa using hℓ2
      obtain ⟨y, hy⟩ := forwardLayers_act rest (loadInput input L0.neurons) m k hm hk
      rw [hy]
      exact ⟨neg_one_lt_tanh y, tanh_lt_one y⟩

/-- Witness for C10 on the example network with input `[0]`. -/
theorem forwardPropagation_act_bounds_witness :
    ([(0 : ℝ)] : List ℝ).length = (exampleNet.layers.getD 0 defaultLayer).neurons.length
    ∧ ∀ ℓ, 1 ≤ ℓ → ℓ < exampleNet.layers.length →
      ∀ k < ((forwardPropagation exampleNet [(0 : ℝ)]).layers.getD ℓ
          defaultLayer).neurons.length,
        -1 < (((forwardPropagation exampleNet [(0 : ℝ)]).layers.getD ℓ
          defaultLayer).neurons.getD k defaultNeuron).activation
        ∧ (((forwardPropagation exampleNet [(0 : ℝ)]).layers.getD ℓ
          defaultLayer).neurons.getD k defaultNeuron).activation < 1 :=
  ⟨rfl, forwardPropagation_act_bounds exampleNet [(0 : ℝ)] rfl⟩

end kl

/-! Facts about `minCoeff` and `maxCoeff`. -/

lemma foldl_min_le_init (l : List ℝ) (a : ℝ) : l.foldl min a ≤ a := by
  induction l generalizing a with
  | nil => simp
  | cons y ys ih => exact le_trans (ih (min a y)) (min_le_left a y)

lemma foldl_min_le_mem (l : List ℝ) (a x : ℝ) (hx : x ∈ l) : l.foldl min a ≤ x := by
  induction l generalizing a with
  | nil => simp at hx
  | cons y ys ih =>
    rcases List.mem_cons.mp hx with rfl | hmem
    · exact le_trans (foldl_min_le_init ys (min a x)) (min_le_right a x)
    · exact ih (min a y) hmem

lemma init_le_foldl_max (l : List ℝ) (a : ℝ) : a ≤ l.foldl max a := by
  induction l generalizing a with
  | nil => simp
  | cons y ys ih => exact le_trans (le_max_left a y) (ih (max a y))

lemma mem_le_foldl_max (l : List ℝ) (a x : ℝ) (hx : x ∈ l) : x ≤ l.foldl max a := by
  induction l generalizing a with
  | nil => simp at hx
  | cons y ys ih =>
    rcases List.mem_cons.mp hx with rfl | hmem
    · exact le_trans (le_max_right a x) (init_le_foldl_max ys (max a x))
    · exact ih (max a y) hmem

lemma minCoeff_le_mem (l : List ℝ) (x : ℝ) (hx : x ∈ l) : minCoeff l ≤ x := by
  cases l with
  | nil => simp at hx
  | cons h t =>
    rcases List.mem_cons.mp hx with rfl | hmem
    · exact foldl_min_le_init t x
    · exact foldl_min_le_mem t h x hmem

lemma mem_le_maxCoeff (l : List ℝ) (x : ℝ) (hx : x ∈ l) : x ≤ maxCoeff l := by
  cases l with
  | nil => simp at hx
  | cons h t =>
    rcases List.mem_cons.mp hx with rfl | hmem
    · exact init_le_foldl_max t x
    · exact mem_le_foldl_max t h x hmem

lemma foldl_min_choice (l : List ℝ) (a : ℝ) : l.foldl min a = a ∨ l.foldl min a ∈ l := by
  induction l generalizing a with
  | nil => exact Or.inl rfl
  | cons y ys ih =>
    rcases ih (min a y) with h | h
    · rcases le_total a y with hay | hya
      · exact Or.inl (by rw [List.foldl_cons, h, min_eq_left hay])
      · exact Or.inr (by rw [List.foldl_cons, h, min_eq_right hya]; exact List.mem_cons_self y ys)
    · exact Or.inr (List.mem_cons_of_mem y h)

lemma foldl_max_choice (l : List ℝ) (a : ℝ) : l.foldl max a = a ∨ l.foldl max a ∈ l := by
  induction l generalizing a with
  | nil => exact Or.inl rfl
  | cons y ys ih =>
    rcases ih (max a y) with h | h
    · rcases le_total y a with hya | hay
      · exact Or.inl (by rw [List.foldl_cons, h, max_eq_left hya])
      · exact Or.inr (by rw [List.foldl_cons, h, max_eq_right hay]; exact List.mem_cons_self y ys)
    · exact Or.inr (List.mem_cons_of_mem y h)

lemma minCoeff_mem (l : List ℝ) (hl : l ≠ []) : minCoeff l ∈ l := by
  cases l with
  | nil => simp at hl
  | cons h t =>
    rcases foldl_min_choice t h with hc | hc
    · rw [minCoeff, hc]
      exact List.mem_cons_self h t
    · exact List.mem_cons_of_mem h hc

lemma maxCoeff_mem (l : List ℝ) (hl : l ≠ []) : maxCoeff l ∈ l := by
  cases l with
  | nil => simp at hl
  | cons h t =>
    rcases foldl_max_choice t h with hc | hc
    · rw [maxCoeff, hc]
      exact List.mem_cons_self h t
    · exact List.mem_cons_of_mem h hc

lemma normalizeRow_length (m : List (List ℝ)) (c0 : ℕ) (row : List ℝ) :
    (normalizeRow m c0 row).length = row.length := by
  induction row generalizing c0 with
  | nil => simp [normalizeRow]
  | cons v vs ih => simp [normalizeRow, ih]

lemma normalizeRow_getD (m : List (List ℝ)) (c0 : ℕ) (row : List ℝ) (c : ℕ)
    (hc : c < row.length) :
    (normalizeRow m c0 row).getD c 0 =
      if maxCoeff (column m (c0 + c)) ≠ minCoeff (column m (c0 + c))
      then (row.getD c 0 - minCoeff (column m (c0 + c)))
        / (maxCoeff (column m (c0 + c)) - minCoeff (column m (c0 + c)))
      else 0 := by
  induction row generalizing c0 c with
  | nil => simp at hc
  | cons v vs ih =>
    cases c with
    | zero => simp [normalizeRow]
    | succ c' =>
      simp only [normalizeRow, List.getD_cons_succ]
      rw [ih (c0 + 1) c' (by simpa using hc)]
      have harith : c0 + 1 + c' = c0 + (c' + 1) := by omega
      rw [harith]

lemma normalizeInputAux_eq_normalizeRow (m : List (List ℝ)) (c0 : ℕ) (vs : List ℝ) :
    normalizeInputAux m c0 vs = normalizeRow m c0 vs := by
  induction vs generalizing c0 with
  | nil => rfl
  | cons v vs ih =>
    rw [normalizeInputAux, normalizeRow, ih (c0 + 1)]

lemma normalizeMatrix_getD (m : List (List ℝ)) (r : ℕ) (hr : r < m.length) :
    (normalizeMatrix m).getD r [] = normalizeRow m 0 (m.getD r []) := by
  unfold normalizeMatrix
  rw [List.getD_eq_getElem _ _ (by simpa using hr), List.getElem_map,
    List.getD_eq_getElem _ _ hr]

lemma listGetD_mem {α : Type} (l : List α) (r : ℕ) (d : α) (h : r < l.length) :
    l.getD r d ∈ l := by
  rw [List.getD_eq_getElem _ _ h]
  exact List.getElem_mem h

lemma column_ne_nil (m : List (List ℝ)) (c : ℕ) (hm : m ≠ []) : column m c ≠ [] := by
  unfold column
  simpa using hm

lemma entry_mem_column (m : List (List ℝ)) (row : List ℝ) (c : ℕ) (hrow : row ∈ m) :
    row.getD c 0 ∈ column m c :=
  List.mem_map_of_mem (fun row => row.getD c 0) hrow

/-- C8: `normalizeMatrix` maps every constant column to zeros and every
other entry into `[0, 1]`, and for every row of the reference matrix,
`normalizeInput` on that row with that reference equals the corresponding
row of `normalizeMatrix(reference)`. -/
theorem normalize_spec (m : List (List ℝ)) (cols : ℕ) (hm : m ≠ [])
    (hrect : ∀ row ∈ m, row.length = cols) :
    (∀ c v, c < cols → (∀ row ∈ m, row.getD c 0 = v) →
      ∀ r, r < m.length → ((normalizeMatrix m).getD r []).getD c 0 = 0)
    ∧ (∀ c, c < cols → ¬ (∃ v, ∀ row ∈ m, row.getD c 0 = v) →
      ∀ r, r < m.length →
        0 ≤ ((normalizeMatrix m).getD r []).getD c 0
        ∧ ((normalizeMatrix m).getD r []).getD c 0 ≤ 1)
    ∧ (∀ r, r < m.length →
        normalizeInput (m.getD r []) m = (normalizeMatrix m).getD r []) := by
  have hcol : ∀ (c r : ℕ), r < m.length → (m.getD r []).getD c 0 ∈ column m c := fun c r hr =>
    entry_mem_column m _ c (listGetD_mem m r [] hr)
  refine ⟨?_, ?_, ?_⟩
  · intro c v hc hconst r hr
    have hrowlen : (m.getD r []).length = cols := hrect _ (listGetD_mem m r [] hr)
    rw [normalizeMatrix_getD m r hr,
      normalizeRow_getD m 0 _ c (by rw [hrowlen]; exact hc), Nat.zero_add]
    have hall : ∀ x ∈ column m c, x = v := by
      intro x hx
      obtain ⟨row, hrow, rfl⟩ := List.mem_map.mp hx
      exact hconst row hrow
    have hmin : minCoeff (column m c) = v := hall _ (minCoeff_mem _ (column_ne_nil m c hm))
    have hmax : maxCoeff (column m c) = v := hall _ (maxCoeff_mem _ (column_ne_nil m c hm))
    rw [hmin, hmax]
    simp
  · intro c hc hnc r hr
    have hrowlen : (m.getD r []).length = cols := hrect _ (listGetD_mem m r [] hr)
    have hne : maxCoeff (column m c) ≠ minCoeff (column m c) := by
      intro heq
      apply hnc
      refine ⟨minCoeff (column m c), fun row hrow => ?_⟩
      have h1 := minCoeff_le_mem _ _ (entry_mem_column m row c hrow)
      have h2 := mem_le_maxCoeff _ _ (entry_mem_column m row c hrow)
      rw [heq] at h2
      linarith
    have hx := hcol c r hr
    have h1 := minCoeff_le_mem _ _ hx
    have h2 := mem_le_maxCoeff _ _ hx
    have hlt : minCoeff (column m c) < maxCoeff (column m c) :=
      lt_of_le_of_ne (le_trans h1 h2) (Ne.symm hne)
    rw [normalizeMatrix_getD m r hr,
      normalizeRow_getD m 0 _ c (by rw [hrowlen]; exact hc), Nat.zero_add, if_pos hne]
    constructor
    · apply div_nonneg
      · linarith
      · linarith
    · rw [div_le_one (by linarith)]
      linarith
  · intro r hr
    rw [normalizeMatrix_getD m r hr]
    unfold normalizeInput
    exact normalizeInputAux_eq_normalizeRow m 0 _

/-- Witness for C8 on the 2-by-1 matrix with rows `[0]` and `[2]`. -/
theorem normalize_spec_witness :
    ([[(0 : ℝ)], [2]] : List (List ℝ)) ≠ []
    ∧ (∀ row ∈ ([[(0 : ℝ)], [2]] : List (List ℝ)), row.length = 1)
    ∧ ((∀ c v, c < 1 → (∀ row ∈ ([[(0 : ℝ)], [2]] : List (List ℝ)), row.getD c 0 = v) →
        ∀ r, r < ([[(0 : ℝ)], [2]] : List (List ℝ)).length →
          ((normalizeMatrix [[(0 : ℝ)], [2]]).getD r []).getD c 0 = 0)
      ∧ (∀ c, c < 1 →
          ¬ (∃ v, ∀ row ∈ ([[(0 : ℝ)], [2]] : List (List ℝ)), row.getD c 0 = v) →
          ∀ r, r < ([[(0 : ℝ)], [2]] : List (List ℝ)).length →
            0 ≤ ((normalizeMatrix [[(0 : ℝ)], [2]]).getD r []).getD c 0
            ∧ ((normalizeMatrix [[(0 : ℝ)], [2]]).getD r []).getD c 0 ≤ 1)
      ∧ (∀ r, r < ([[(0 : ℝ)], [2]] : List (List ℝ)).length →
          normalizeInput (([[(0 : ℝ)], [2]] : List (List ℝ)).getD r []) [[(0 : ℝ)], [2]] =
            (normalizeMatrix [[(0 : ℝ)], [2]]).getD r [])) :=
  ⟨by simp, by simp, normalize_spec [[(0 : ℝ)], [2]] 1 (by simp) (by simp)⟩
